import Mathlib

/-!
Verification of the data-shaping pipeline of `src/App.js` (Apple-Data-Filter):
filter by year/revenue/net-income ranges, stable sort by a column key, and
display formatting.  JavaScript numbers are modelled as exact integers
extended with `Infinity`, `-Infinity` and `NaN`; `null` and `undefined`
follow ECMAScript coercion (`ToNumber(null) = 0`, `ToNumber(undefined) = NaN`).
-/

/-- Result of ECMAScript `ToNumber` as the sort/filter code observes it:
a finite integer, `Infinity`, `-Infinity`, or `NaN`.  (The records carry
whole currency units, so finite values are modelled as exact integers;
IEEE-754 rounding of doubles is outside the model.) -/
inductive ENum where
  | fin : Int → ENum
  | inf : ENum
  | negInf : ENum
  | nan : ENum
deriving DecidableEq

/-- A JavaScript value as it may appear in a record field or a filter bound:
a number (finite, `Infinity` or `NaN`), `null`, or `undefined`. -/
inductive JSVal where
  | num : Int → JSVal
  | inf : JSVal
  | nan : JSVal
  | null : JSVal
  | undef : JSVal
deriving DecidableEq

/-- ECMAScript `ToNumber` on the values above: `null` coerces to `0`,
`undefined` coerces to `NaN`. -/
def toNumber : JSVal → ENum
  | .num n => .fin n
  | .inf => .inf
  | .nan => .nan
  | .null => .fin 0
  | .undef => .nan

/-- The `<=` relational operator on coerced numbers: any comparison with
`NaN` is false; otherwise the usual extended-number order. -/
def eLe : ENum → ENum → Bool
  | .nan, _ => false
  | _, .nan => false
  | .fin a, .fin b => decide (a ≤ b)
  | .fin _, .inf => true
  | .fin _, .negInf => false
  | .inf, .inf => true
  | .inf, .fin _ => false
  | .inf, .negInf => false
  | .negInf, _ => true

/-- JavaScript `x <= y` on values (coerce both sides, then compare). -/
def jsLe (x y : JSVal) : Bool := eLe (toNumber x) (toNumber y)

/-- JavaScript `x >= y` on values (coerce both sides, then compare). -/
def jsGe (x y : JSVal) : Bool := eLe (toNumber y) (toNumber x)

/-- Subtraction on extended numbers, as produced by the sort comparator
`a[key] - b[key]`: `NaN` is absorbing, `Infinity - Infinity = NaN`. -/
def eSub : ENum → ENum → ENum
  | .nan, _ => .nan
  | _, .nan => .nan
  | .fin a, .fin b => .fin (a - b)
  | .inf, .inf => .nan
  | .negInf, .negInf => .nan
  | .inf, _ => .inf
  | .negInf, _ => .negInf
  | .fin _, .inf => .negInf
  | .fin _, .negInf => .inf

/-- One fiscal-year income-statement record as consumed by `App.js`.
`date` is the raw string from the API; the numeric fields may be `null`
(JSON null) or `undefined` (property absent from the object). -/
structure FinancialRecord where
  date : String
  revenue : JSVal
  netIncome : JSVal
  grossProfit : JSVal
  operatingIncome : JSVal
  eps : JSVal
deriving DecidableEq

/-- `yearRange` bounds of the filter state (`start`/`end`). -/
structure YearRange where
  start : JSVal
  «end» : JSVal
deriving DecidableEq

/-- `revenueRange` / `netIncomeRange` bounds of the filter state. -/
structure MinMax where
  min : JSVal
  max : JSVal
deriving DecidableEq

/-- The `filters` state object of `App.js`. -/
structure Filters where
  yearRange : YearRange
  revenueRange : MinMax
  netIncomeRange : MinMax
deriving DecidableEq

/-- The initial `filters` state:
`{yearRange: {start: 2020, end: 2024}, revenueRange: {min: 0, max: Infinity},
netIncomeRange: {min: 0, max: Infinity}}`. -/
def initialFilters : Filters :=
  ⟨⟨.num 2020, .num 2024⟩, ⟨.num 0, .inf⟩, ⟨.num 0, .inf⟩⟩

/-- `s.split('-')[0]`: the characters of `s` up to (not including) the
first `'-'`. -/
def beforeDash (s : String) : String :=
  String.mk (s.toList.takeWhile (fun c => c ≠ '-'))

/-- Numeric value of a list of decimal digits. -/
def digitsVal (cs : List Char) : Nat :=
  cs.foldl (fun a c => 10 * a + (c.toNat - '0'.toNat)) 0

/-- JavaScript `parseInt(s)` (radix 10): skip leading whitespace, read an
optional sign and then the maximal run of leading decimal digits; `NaN`
when no digit is found.  (The hexadecimal `0x` prefix and the overflow of
very long digit strings to `Infinity` are not modelled; neither occurs on
the date prefixes and numeric input strings this component parses.) -/
def parseIntJS (s : String) : JSVal :=
  let cs := s.toList.dropWhile (fun c => c = ' ' ∨ c = '\t' ∨ c = '\n' ∨ c = '\r')
  match cs with
  | '-' :: rest =>
      let ds := rest.takeWhile Char.isDigit
      if ds.isEmpty then .nan else .num (-(digitsVal ds : Int))
  | '+' :: rest =>
      let ds := rest.takeWhile Char.isDigit
      if ds.isEmpty then .nan else .num (digitsVal ds : Int)
  | _ =>
      let ds := cs.takeWhile Char.isDigit
      if ds.isEmpty then .nan else .num (digitsVal ds : Int)

/-- The predicate inside `applyFilters`:
`year >= start && year <= end && revenue >= min && revenue <= max &&
netIncome >= min && netIncome <= max`, with
`year = parseInt(item.date.split('-')[0])`. -/
def passes (filters : Filters) (item : FinancialRecord) : Bool :=
  let year := parseIntJS (beforeDash item.date)
  jsGe year filters.yearRange.start &&
  jsLe year filters.yearRange.«end» &&
  jsGe item.revenue filters.revenueRange.min &&
  jsLe item.revenue filters.revenueRange.max &&
  jsGe item.netIncome filters.netIncomeRange.min &&
  jsLe item.netIncome filters.netIncomeRange.max

/-- `applyFilters`: `data.filter(item => ...)` with the predicate above. -/
def applyFilters (filters : Filters) (data : List FinancialRecord) :
    List FinancialRecord :=
  data.filter (fun item => passes filters item)

/-- The `sortConfig` state `{key, direction}` of `App.js`; both are plain
strings compared with `===` in the source. -/
structure SortConfig where
  key : String
  direction : String
deriving DecidableEq

/-- The initial `sortConfig` state: `{key: 'date', direction: 'asc'}`. -/
def initialSortConfig : SortConfig := ⟨"date", "asc"⟩

/-- `handleSort(key)`: direction becomes `'desc'` exactly when the clicked
key is the current key and the current direction is `'asc'`; otherwise
`'asc'`. -/
def handleSort (sortConfig : SortConfig) (key : String) : SortConfig :=
  if sortConfig.key = key ∧ sortConfig.direction = "asc" then ⟨key, "desc"⟩
  else ⟨key, "asc"⟩

/-- Whether a calendar year is a leap year (Gregorian rule, as used by the
ECMAScript date arithmetic). -/
def isLeap (y : Nat) : Bool :=
  y % 4 = 0 && (y % 100 ≠ 0 || y % 400 = 0)

/-- Number of days in a given month of a given year. -/
def daysInMonth (y m : Nat) : Nat :=
  if m = 2 then (if isLeap y then 29 else 28)
  else if m = 4 ∨ m = 6 ∨ m = 9 ∨ m = 11 then 30 else 31

/-- Decimal value of one digit character. -/
def digitVal (c : Char) : Nat := c.toNat - '0'.toNat

/-- `new Date(s).valueOf()` for the `YYYY-MM-DD` date strings this
component receives: `NaN` (an Invalid Date) unless the string is exactly
ten characters `YYYY-MM-DD` denoting a valid calendar date; a valid date
is encoded as the integer `y*10000 + m*100 + d`.  This encoding is
order-isomorphic to the ECMAScript time value (milliseconds since the
epoch), and the sort comparator only consumes the sign of differences of
these values, so the encoding is observation-equivalent for sorting.
(Other ECMAScript-parseable date formats never occur in this data and are
mapped to `NaN`.) -/
def dateValue (s : String) : ENum :=
  match s.toList with
  | [y1, y2, y3, y4, c1, m1, m2, c2, d1, d2] =>
    if y1.isDigit ∧ y2.isDigit ∧ y3.isDigit ∧ y4.isDigit ∧ c1 = '-' ∧
       m1.isDigit ∧ m2.isDigit ∧ c2 = '-' ∧ d1.isDigit ∧ d2.isDigit then
      let y := digitVal y1 * 1000 + digitVal y2 * 100 + digitVal y3 * 10 + digitVal y4
      let m := digitVal m1 * 10 + digitVal m2
      let d := digitVal d1 * 10 + digitVal d2
      if 1 ≤ m ∧ m ≤ 12 ∧ 1 ≤ d ∧ d ≤ daysInMonth y m then
        .fin ((y * 10000 + m * 100 + d : Nat) : Int)
      else .nan
    else .nan
  | _ => .nan

/-- The comparator passed to `sortableData.sort`: subtraction of the two
selected keys (`new Date(·)` values for `'date'`, the raw fields for
`'revenue'`/`'netIncome'`), with the operand order swapped when
`direction !== 'asc'`; `0` for any other key. -/
def itemCompare (cfg : SortConfig) (a b : FinancialRecord) : ENum :=
  if cfg.key = "date" then
    let dateA := dateValue a.date
    let dateB := dateValue b.date
    if cfg.direction = "asc" then eSub dateA dateB else eSub dateB dateA
  else if cfg.key = "revenue" ∨ cfg.key = "netIncome" then
    let va := toNumber (if cfg.key = "revenue" then a.revenue else a.netIncome)
    let vb := toNumber (if cfg.key = "revenue" then b.revenue else b.netIncome)
    if cfg.direction = "asc" then eSub va vb else eSub vb va
  else .fin 0

/-- ECMAScript `SortCompare` applied to the comparator's result: a `NaN`
return value is treated as `+0`; only the sign of the result is consumed,
so `Infinity` and `-Infinity` are represented by `1` and `-1`. -/
def sortCompareVal : ENum → Int
  | .nan => 0
  | .fin n => n
  | .inf => 1
  | .negInf => -1

/-- The integer comparison the sort machinery actually observes. -/
def sortCompare (cfg : SortConfig) (a b : FinancialRecord) : Int :=
  sortCompareVal (itemCompare cfg a b)

/-- Insert `x` into `l` immediately before the first element `y` with
`c x y < 0` (so `x` lands after every element it compares equal to): the
insertion step of a conformant ES2019 stable sort. -/
def insertRight (c : α → α → Int) (x : α) : List α → List α
  | [] => [x]
  | y :: ys => if c x y < 0 then x :: y :: ys else y :: insertRight c x ys

/-- Left-to-right insertion: `acc` is the already-sorted prefix. -/
def jsSortAux (c : α → α → Int) : List α → List α → List α
  | acc, [] => acc
  | acc, x :: xs => jsSortAux c (insertRight c x acc) xs

/-- Model of `Array.prototype.sort(c)` (ES2019): a stable sort directed by
the sign of the comparator.  For a consistent comparator the stable sorted
list is unique, every conformant implementation returns it, and this model
computes it (the regime of all general theorems below).  For an
inconsistent comparator (possible here when a record's sort key coerces to
`NaN`) the ECMAScript result is implementation-defined and this model
fixes the insertion order above, so it is only used at concrete
inconsistent-comparator inputs where it coincides with the engine
algorithm (see `v8Sort`, which the C4 counterexample evaluates alongside
it at the same input). -/
def jsSort (c : α → α → Int) (l : List α) : List α := jsSortAux c [] l

/-- The `sortedData` memo as a function of `filteredData`:
`[...filteredData]` copied and sorted with the comparator when
`sortConfig.key` is truthy (the key is always a string here, so falsy
means the empty string). -/
def sortedData (cfg : SortConfig) (filteredData : List FinancialRecord) :
    List FinancialRecord :=
  if cfg.key = "" then filteredData else jsSort (sortCompare cfg) filteredData

/-- The same computation viewed on a store of JavaScript arrays (arrays
modelled as store indices): `let sortableData = [...filteredData]`
allocates a fresh array holding a copy of the array at index `fd`,
`sortableData.sort(...)` overwrites that fresh array in place, and the
memo's value is the fresh index.  Returns the final store and that
index. -/
def sortedDataProg (cfg : SortConfig) (store : List (List FinancialRecord))
    (fd : Nat) : List (List FinancialRecord) × Nat :=
  let sIdx := store.length
  let store1 := store ++ [store.getD fd []]
  let store2 := store1.set sIdx (sortedData cfg (store1.getD sIdx []))
  (store2, sIdx)

/-- The binary search of V8's `BinaryInsertionSort` (array-sort.tq): the
pivot's insertion index in `l[left..right)`, moving `right` down to `mid`
when `c pivot l[mid] < 0` and `left` up past `mid` otherwise, so the pivot
lands after every probed element it compares equal to.  The interval
shrinks every step, so `l.length + 1` fuel always suffices. -/
def binSearchAux (c : α → α → Int) (pivot : α) (l : List α) :
    Nat → Nat → Nat → Nat
  | 0, left, _ => left
  | fuel + 1, left, right =>
    if left < right then
      let mid := left + (right - left) / 2
      if c pivot (l.getD mid pivot) < 0 then
        binSearchAux c pivot l fuel left mid
      else
        binSearchAux c pivot l fuel (mid + 1) right
    else left

/-- The extension count of V8's `CountAndMakeRun`: how many further
elements continue the initial run — strictly descending
(`c cur prev < 0`) when `isDesc`, non-descending (`c cur prev >= 0`)
otherwise. -/
def countRun (c : α → α → Int) (isDesc : Bool) : α → List α → Nat
  | _, [] => 0
  | prev, x :: xs =>
    if (if isDesc then c x prev < 0 else 0 ≤ c x prev) then
      1 + countRun c isDesc x xs
    else 0

/-- V8's `BinaryInsertionSort`: insert the remaining elements one by one
at the index `binSearchAux` delivers. -/
def binInsertAll (c : α → α → Int) (acc : List α) : List α → List α
  | [] => acc
  | x :: xs =>
    let p := binSearchAux c x acc (acc.length + 1) 0 acc.length
    binInsertAll c (acc.take p ++ x :: acc.drop p) xs

/-- V8's `Array.prototype.sort` for arrays shorter than 64 elements (this
component holds at most a few dozen records): `ComputeMinRunLength`
returns the whole length, so TimSort performs exactly one
`CountAndMakeRun` — an initial non-descending run, or a strictly
descending run that is reversed — followed by one `BinaryInsertionSort`
of the remaining elements, and never merges.  Used to validate concrete
inconsistent-comparator evaluations of `jsSort` against the engine
algorithm; for consistent comparators both compute the unique stable
result. -/
def v8Sort (c : α → α → Int) (l : List α) : List α :=
  match l with
  | [] => []
  | [x] => [x]
  | a0 :: a1 :: rest =>
    let isDesc := c a1 a0 < 0
    let k := 2 + countRun c isDesc a1 rest
    let run := (a0 :: a1 :: rest).take k
    let run1 := if isDesc then run.reverse else run
    binInsertAll c run1 ((a0 :: a1 :: rest).drop k)

theorem insertRight_perm (c : α → α → Int) (x : α) (l : List α) :
    List.Perm (insertRight c x l) (x :: l) := by
  induction l with
  | nil => exact List.Perm.refl _
  | cons y ys ih =>
    unfold insertRight
    split
    · exact List.Perm.refl _
    · exact (List.Perm.cons y ih).trans (List.Perm.swap x y ys)

theorem jsSortAux_perm (c : α → α → Int) (l : List α) :
    ∀ acc, List.Perm (jsSortAux c acc l) (acc ++ l) := by
  induction l with
  | nil => intro acc; simp [jsSortAux]
  | cons x xs ih =>
    intro acc
    have h1 : List.Perm (jsSortAux c (insertRight c x acc) xs)
        (insertRight c x acc ++ xs) := ih _
    have h2 : List.Perm (insertRight c x acc ++ xs) ((x :: acc) ++ xs) :=
      (insertRight_perm c x acc).append_right xs
    exact (h1.trans h2).trans List.perm_middle.symm

theorem jsSort_perm (c : α → α → Int) (l : List α) :
    List.Perm (jsSort c l) l := by
  simpa [jsSort] using jsSortAux_perm c l []

theorem mem_insertRight {c : α → α → Int} {x a : α} {l : List α} :
    a ∈ insertRight c x l ↔ a = x ∨ a ∈ l := by
  rw [(insertRight_perm c x l).mem_iff, List.mem_cons]

theorem insertRight_congr {c₁ c₂ : α → α → Int} {x : α} {l : List α}
    (h : ∀ y ∈ l, c₁ x y = c₂ x y) :
    insertRight c₁ x l = insertRight c₂ x l := by
  induction l with
  | nil => rfl
  | cons y ys ih =>
    unfold insertRight
    rw [h y (List.mem_cons_self y ys)]
    split
    · rfl
    · rw [ih (fun z hz => h z (List.mem_cons_of_mem y hz))]

theorem jsSortAux_congr {c₁ c₂ : α → α → Int} :
    ∀ (l acc : List α),
      (∀ a b, (a ∈ acc ∨ a ∈ l) → (b ∈ acc ∨ b ∈ l) → c₁ a b = c₂ a b) →
      jsSortAux c₁ acc l = jsSortAux c₂ acc l := by
  intro l
  induction l with
  | nil => intro acc _; rfl
  | cons x xs ih =>
    intro acc h
    show jsSortAux c₁ (insertRight c₁ x acc) xs
        = jsSortAux c₂ (insertRight c₂ x acc) xs
    have hx : insertRight c₁ x acc = insertRight c₂ x acc :=
      insertRight_congr (fun y hy =>
        h x y (Or.inr (List.mem_cons_self x xs)) (Or.inl hy))
    rw [hx]
    have resolve : ∀ a, (a ∈ insertRight c₂ x acc ∨ a ∈ xs) →
        (a ∈ acc ∨ a ∈ x :: xs) := by
      intro a ha
      rcases ha with ha | ha
      · rcases mem_insertRight.mp ha with rfl | ha
        · exact Or.inr (List.mem_cons_self _ _)
        · exact Or.inl ha
      · exact Or.inr (List.mem_cons_of_mem _ ha)
    exact ih (insertRight c₂ x acc)
      (fun a b ha hb => h a b (resolve a ha) (resolve b hb))

theorem jsSort_congr {c₁ c₂ : α → α → Int} (l : List α)
    (h : ∀ a b, a ∈ l → b ∈ l → c₁ a b = c₂ a b) :
    jsSort c₁ l = jsSort c₂ l := by
  refine jsSortAux_congr l [] (fun a b ha hb => h a b ?_ ?_)
  · rcases ha with ha | ha
    · cases ha
    · exact ha
  · rcases hb with hb | hb
    · cases hb
    · exact hb

theorem insertRight_pairwise (f : α → Int) (x : α) {l : List α}
    (h : l.Pairwise (fun a b => f a ≤ f b)) :
    (insertRight (fun a b => f a - f b) x l).Pairwise (fun a b => f a ≤ f b) := by
  induction l with
  | nil => simp [insertRight]
  | cons y ys ih =>
    rcases List.pairwise_cons.mp h with ⟨hy, hys⟩
    unfold insertRight
    split
    case isTrue hlt =>
      refine List.pairwise_cons.mpr ⟨?_, h⟩
      intro z hz
      rcases List.mem_cons.mp hz with rfl | hz
      · omega
      · have := hy z hz; omega
    case isFalse hge =>
      refine List.pairwise_cons.mpr ⟨?_, ih hys⟩
      intro z hz
      rcases mem_insertRight.mp hz with rfl | hz
      · omega
      · exact hy z hz

theorem jsSortAux_pairwise (f : α → Int) :
    ∀ (l acc : List α), acc.Pairwise (fun a b => f a ≤ f b) →
      (jsSortAux (fun a b => f a - f b) acc l).Pairwise (fun a b => f a ≤ f b) := by
  intro l
  induction l with
  | nil => intro acc h; exact h
  | cons x xs ih => intro acc h; exact ih _ (insertRight_pairwise f x h)

theorem jsSort_sorted (f : α → Int) (l : List α) :
    (jsSort (fun a b => f a - f b) l).Pairwise (fun a b => f a ≤ f b) :=
  jsSortAux_pairwise f l [] List.Pairwise.nil

theorem filter_insertRight_neg (p : α → Bool) (c : α → α → Int) (x : α)
    (hx : p x = false) :
    ∀ l : List α, (insertRight c x l).filter p = l.filter p := by
  intro l
  induction l with
  | nil => simp [insertRight, hx]
  | cons y ys ih =>
    unfold insertRight
    split
    · simp [List.filter_cons, hx]
    · simp [List.filter_cons, ih]

theorem filter_insertRight_pos (f : α → Int) (v : Int) (x : α) (hx : f x = v) :
    ∀ l : List α, l.Pairwise (fun a b => f a ≤ f b) →
      (insertRight (fun a b => f a - f b) x l).filter (fun y => decide (f y = v))
        = l.filter (fun y => decide (f y = v)) ++ [x] := by
  intro l
  induction l with
  | nil => simp [insertRight, hx]
  | cons y ys ih =>
    intro h
    rcases List.pairwise_cons.mp h with ⟨hy, hys⟩
    unfold insertRight
    split
    case isTrue hlt =>
      have hnil : (y :: ys).filter (fun z => decide (f z = v)) = [] := by
        rw [List.filter_eq_nil_iff]
        intro z hz
        rcases List.mem_cons.mp hz with rfl | hz
        · simp; omega
        · have := hy z hz; simp; omega
      simp [List.filter_cons, hx, hnil]
    case isFalse hge =>
      simp [List.filter_cons, ih hys]
      split <;> rfl

theorem jsSortAux_filter (f : α → Int) (v : Int) :
    ∀ (l acc : List α), acc.Pairwise (fun a b => f a ≤ f b) →
      (jsSortAux (fun a b => f a - f b) acc l).filter (fun y => decide (f y = v))
        = acc.filter (fun y => decide (f y = v))
          ++ l.filter (fun y => decide (f y = v)) := by
  intro l
  induction l with
  | nil => intro acc _; simp [jsSortAux]
  | cons x xs ih =>
    intro acc h
    show (jsSortAux _ (insertRight _ x acc) xs).filter _ = _
    rw [ih _ (insertRight_pairwise f x h)]
    by_cases hx : f x = v
    · rw [filter_insertRight_pos f v x hx acc h]
      simp [List.filter_cons, hx]
    · rw [filter_insertRight_neg _ _ _ (by simp [hx]) acc]
      simp [List.filter_cons, hx]

theorem jsSort_filter (f : α → Int) (v : Int) (l : List α) :
    (jsSort (fun a b => f a - f b) l).filter (fun y => decide (f y = v))
      = l.filter (fun y => decide (f y = v)) := by
  simpa [jsSort] using jsSortAux_filter f v l [] List.Pairwise.nil

theorem sorted_perm_eq (f : α → Int) :
    ∀ (l₁ l₂ : List α), List.Perm l₁ l₂ →
      l₁.Pairwise (fun a b => f a ≤ f b) → l₂.Pairwise (fun a b => f a ≤ f b) →
      l₁.Pairwise (fun a b => f a ≠ f b) → l₁ = l₂ := by
  intro l₁
  induction l₁ with
  | nil => intro l₂ hp _ _ _; exact hp.nil_eq
  | cons x t₁ ih =>
    intro l₂ hp h₁ h₂ hd
    cases l₂ with
    | nil => exact absurd hp.eq_nil (by simp)
    | cons y t₂ =>
      rcases List.pairwise_cons.mp h₁ with ⟨hx1, ht₁⟩
      rcases List.pairwise_cons.mp h₂ with ⟨hy2, ht₂⟩
      rcases List.pairwise_cons.mp hd with ⟨hdx, hdt⟩
      by_cases hxy : x = y
      · subst hxy
        rw [ih t₂ hp.cons_inv ht₁ ht₂ hdt]
      · have hx2 : x ∈ y :: t₂ := hp.mem_iff.mp (List.mem_cons_self x t₁)
        have hxt₂ : x ∈ t₂ := by
          rcases List.mem_cons.mp hx2 with h | h
          · exact absurd h hxy
          · exact h
        have hy1 : y ∈ x :: t₁ := hp.mem_iff.mpr (List.mem_cons_self y t₂)
        have hyt₁ : y ∈ t₁ := by
          rcases List.mem_cons.mp hy1 with h | h
          · exact absurd h.symm hxy
          · exact h
        exact absurd (le_antisymm (hx1 y hyt₁) (hy2 x hxt₂)) (hdx y hyt₁)

/-- The `ToNumber`-coerced sort key the comparator reads from a record
(`fin 0` for an unrecognized key, whose comparator is constantly `0`). -/
def keyE (key : String) (r : FinancialRecord) : ENum :=
  if key = "date" then dateValue r.date
  else if key = "revenue" then toNumber r.revenue
  else if key = "netIncome" then toNumber r.netIncome
  else .fin 0

/-- Whether a record's selected sort key is an actual finite number: a
valid parseable date for `'date'`, a number or `null` (which coerces to
`0`) for `'revenue'`/`'netIncome'`.  A missing (`undefined`) field or an
unparseable date makes the comparator produce `NaN`. -/
def keyDefined (key : String) (r : FinancialRecord) : Bool :=
  match keyE key r with
  | .fin _ => true
  | _ => false

/-- The integer sort key (defaulting to `0` where the key is not a finite
number). -/
def keyInt (key : String) (r : FinancialRecord) : Int :=
  match keyE key r with
  | .fin n => n
  | _ => 0

/-- The signed key the comparator orders by: negated when the direction is
not `'asc'`. -/
def dirKey (cfg : SortConfig) (r : FinancialRecord) : Int :=
  if cfg.direction = "asc" then keyInt cfg.key r else -(keyInt cfg.key r)

theorem keyDefined_iff {key : String} {r : FinancialRecord} :
    keyDefined key r = true ↔ ∃ n, keyE key r = .fin n := by
  unfold keyDefined
  rcases h : keyE key r <;> simp [h]

theorem itemCompare_eq (cfg : SortConfig) (a b : FinancialRecord) :
    itemCompare cfg a b =
      if cfg.direction = "asc" then eSub (keyE cfg.key a) (keyE cfg.key b)
      else eSub (keyE cfg.key b) (keyE cfg.key a) := by
  unfold itemCompare keyE
  by_cases h1 : cfg.key = "date"
  · simp [h1]
  · by_cases h2 : cfg.key = "revenue"
    · simp [h1, h2]
    · by_cases h3 : cfg.key = "netIncome"
      · simp [h1, h2, h3]
      · simp only [h1, h2, h3, if_false, or_self]
        split <;> simp [eSub]

theorem sortCompare_eq_sub (cfg : SortConfig) (a b : FinancialRecord)
    (ha : keyDefined cfg.key a = true) (hb : keyDefined cfg.key b = true) :
    sortCompare cfg a b = dirKey cfg a - dirKey cfg b := by
  rcases keyDefined_iff.mp ha with ⟨x, hx⟩
  rcases keyDefined_iff.mp hb with ⟨y, hy⟩
  unfold sortCompare dirKey keyInt
  rw [itemCompare_eq, hx, hy]
  split
  · simp [eSub, sortCompareVal]
  · simp [eSub, sortCompareVal]
    omega

/-- `name.split('.')[0]`: the characters before the first `'.'`. -/
def beforeDot (s : String) : String :=
  String.mk (s.toList.takeWhile (fun c => c ≠ '.'))

/-- `name.split('.')[1]` for the one-dot names this component uses: the
characters after the first `'.'` (empty when there is no dot, which like
JavaScript's `undefined` here differs from `'max'`). -/
def afterDot (s : String) : String :=
  String.mk ((s.toList.dropWhile (fun c => c ≠ '.')).drop 1)

/-- The value stored by `handleFilterChange`:
`value === '' ? (filterKey === 'max' ? Infinity : 0) : parseInt(value)`. -/
def normalizeBound (filterKey value : String) : JSVal :=
  if value = "" then (if filterKey = "max" then .inf else .num 0)
  else parseIntJS value

/-- `handleFilterChange` restricted to the filters state: splits the input
name into `filterType.filterKey` and stores the normalized value in that
bound.  The six names below are the only ones the rendered inputs carry;
any other name would create a property `applyFilters` never reads, so the
observable filter state is unchanged. -/
def handleFilterChange (prev : Filters) (name value : String) : Filters :=
  let filterType := beforeDot name
  let filterKey := afterDot name
  let newVal := normalizeBound filterKey value
  if filterType = "yearRange" then
    if filterKey = "start" then
      { prev with yearRange := { prev.yearRange with start := newVal } }
    else if filterKey = "end" then
      { prev with yearRange := { prev.yearRange with «end» := newVal } }
    else prev
  else if filterType = "revenueRange" then
    if filterKey = "min" then
      { prev with revenueRange := { prev.revenueRange with min := newVal } }
    else if filterKey = "max" then
      { prev with revenueRange := { prev.revenueRange with max := newVal } }
    else prev
  else if filterType = "netIncomeRange" then
    if filterKey = "min" then
      { prev with netIncomeRange := { prev.netIncomeRange with min := newVal } }
    else if filterKey = "max" then
      { prev with netIncomeRange := { prev.netIncomeRange with max := newVal } }
    else prev
  else prev

/-- Read back the bound a given input name addresses. -/
def readBound (f : Filters) (name : String) : Option JSVal :=
  if name = "yearRange.start" then some f.yearRange.start
  else if name = "yearRange.end" then some f.yearRange.«end»
  else if name = "revenueRange.min" then some f.revenueRange.min
  else if name = "revenueRange.max" then some f.revenueRange.max
  else if name = "netIncomeRange.min" then some f.netIncomeRange.min
  else if name = "netIncomeRange.max" then some f.netIncomeRange.max
  else none

/-- The scaled cell value `(num / 1_000_000_000).toFixed(3)` computed at
thousandths of a billion: the integer nearest to `a / 10^6` with ties
rounded up, per the ECMAScript `toFixed` rule (pick the larger candidate
on a tie), applied to the exact magnitude `a`. -/
def fixedScaled (a : Nat) : Nat := (a + 500000) / 1000000

/-- Zero-pad a number below 1000 to three digits. -/
def pad3 (f : Nat) : String :=
  if f < 10 then "00" ++ toString f
  else if f < 100 then "0" ++ toString f
  else toString f

/-- `(n / 1_000_000_000).toFixed(3)` for a finite value `n`: sign, integer
part, and exactly three decimals.  (`toFixed` extracts the sign first and
rounds the magnitude; values at or above `10^21`, where `toFixed` falls
back to exponential notation, do not occur in this data and are not
modelled.) -/
def toFixed3Billions (n : Int) : String :=
  let s := if n < 0 then "-" else ""
  let m := fixedScaled n.natAbs
  s ++ toString (m / 1000) ++ "." ++ pad3 (m % 1000)

/-- `formatToBillions`: `'N/A'` for `null`/`undefined`, otherwise the value
scaled to billions with three decimals and a `' B'` suffix.
(`Number.prototype.toFixed` renders `Infinity` and `NaN` as their names.) -/
def formatToBillions : JSVal → String
  | .null => "N/A"
  | .undef => "N/A"
  | .num n => toFixed3Billions n ++ " B"
  | .inf => "Infinity B"
  | .nan => "NaN B"

theorem eLe_fin_fin (a b : Int) : eLe (.fin a) (.fin b) = decide (a ≤ b) := rfl

theorem eLe_nan_right (x : ENum) : eLe x .nan = false := by
  cases x <;> rfl

/-- C1: a record with a parseable year and numeric revenue/netIncome is
kept by `applyFilters` if and only if it occurs in the input and the year,
revenue and netIncome each lie (inclusively) within the corresponding
range.  In particular the boundary record `date="2020-09-26"`,
`revenue=100` passes `yearRange={2020,2020}`, `revenueRange={100,100}`
and fails `yearRange={2021,2024}` (see the witness). -/
theorem applyFilters_mem_iff (data : List FinancialRecord) (r : FinancialRecord)
    (ys ye rmin rmax nmin nmax y rv ni : Int)
    (hy : parseIntJS (beforeDash r.date) = JSVal.num y)
    (hrv : r.revenue = JSVal.num rv) (hni : r.netIncome = JSVal.num ni) :
    r ∈ applyFilters ⟨⟨.num ys, .num ye⟩, ⟨.num rmin, .num rmax⟩,
        ⟨.num nmin, .num nmax⟩⟩ data ↔
      r ∈ data ∧ ((ys ≤ y ∧ y ≤ ye) ∧ (rmin ≤ rv ∧ rv ≤ rmax) ∧
        (nmin ≤ ni ∧ ni ≤ nmax)) := by
  unfold applyFilters
  rw [List.mem_filter]
  refine and_congr_right fun _ => ?_
  unfold passes jsGe jsLe
  rw [hy, hrv, hni]
  simp only [toNumber, eLe_fin_fin, Bool.and_eq_true, decide_eq_true_eq]
  tauto

/-- C1 witness: the record `date="2020-09-26"`, `revenue=100` passes
`yearRange={2020,2020}` with `revenueRange={min:100,max:100}` and fails
`yearRange={2021,2024}` with the same revenue range. -/
theorem applyFilters_mem_iff_witness :
    (⟨"2020-09-26", .num 100, .num 0, .num 0, .num 0, .num 0⟩ : FinancialRecord) ∈
      applyFilters ⟨⟨.num 2020, .num 2020⟩, ⟨.num 100, .num 100⟩, ⟨.num 0, .num 0⟩⟩
        [⟨"2020-09-26", .num 100, .num 0, .num 0, .num 0, .num 0⟩] ∧
    (⟨"2020-09-26", .num 100, .num 0, .num 0, .num 0, .num 0⟩ : FinancialRecord) ∉
      applyFilters ⟨⟨.num 2021, .num 2024⟩, ⟨.num 100, .num 100⟩, ⟨.num 0, .num 0⟩⟩
        [⟨"2020-09-26", .num 100, .num 0, .num 0, .num 0, .num 0⟩] := by
  constructor
  · exact (applyFilters_mem_iff _ _ 2020 2020 100 100 0 0 2020 100 0
      (by decide) rfl rfl).mpr (by refine ⟨by decide, ?_⟩; omega)
  · intro hmem
    have := (applyFilters_mem_iff _ _ 2021 2024 100 100 0 0 2020 100 0
      (by decide) rfl rfl).mp hmem
    omega

/-- C2 counterexample: the claim says a record with a `null` numeric field
is excluded whenever the bound applies, but JavaScript coerces `null` to
`0` in relational comparisons, so a record with `revenue=null` passes the
default criteria (`revenueRange={min:0,max:Infinity}`) and is kept. -/
theorem filter_null_passes :
    applyFilters initialFilters
        [⟨"2021-09-25", .null, .num 5, .num 0, .num 0, .num 0⟩]
      = [⟨"2021-09-25", .null, .num 5, .num 0, .num 0, .num 0⟩] := by
  decide

/-- C2 (amended): a record whose `revenue` or `netIncome` is `undefined`
fails every range comparison and is excluded for all criteria; a `null`
field is coerced to `0`, so it filters exactly as the value `0` would
(kept iff `0` lies within the corresponding range and the other conditions
hold). -/
theorem filter_missing_numeric (f : Filters) (r : FinancialRecord) :
    ((r.revenue = JSVal.undef ∨ r.netIncome = JSVal.undef) →
      passes f r = false) ∧
    passes f { r with revenue := JSVal.null }
      = passes f { r with revenue := JSVal.num 0 } ∧
    passes f { r with netIncome := JSVal.null }
      = passes f { r with netIncome := JSVal.num 0 } := by
  refine ⟨?_, rfl, rfl⟩
  intro h
  rcases h with h | h <;>
    simp [passes, jsGe, jsLe, h, toNumber, eLe_nan_right]

/-- C2 witness: a record with `undefined` revenue is excluded under the
default criteria. -/
theorem filter_missing_numeric_witness :
    passes initialFilters ⟨"2021-09-25", .undef, .num 5, .num 0, .num 0, .num 0⟩
      = false :=
  (filter_missing_numeric initialFilters
    ⟨"2021-09-25", .undef, .num 5, .num 0, .num 0, .num 0⟩).1 (Or.inl rfl)

/-- C6: `applyFilters` is idempotent — filtering an already-filtered list
with the same criteria returns it unchanged. -/
theorem applyFilters_idem (f : Filters) (data : List FinancialRecord) :
    applyFilters f (applyFilters f data) = applyFilters f data := by
  unfold applyFilters
  rw [List.filter_filter]
  simp

/-- C7: `applyFilters` returns a sublist of its input, so any two
surviving records keep their relative input order. -/
theorem applyFilters_sublist (f : Filters) (data : List FinancialRecord) :
    List.Sublist (applyFilters f data) data :=
  List.filter_sublist data

theorem parseIntJS_ne_undef (s : String) : parseIntJS s ≠ JSVal.undef := by
  simp only [parseIntJS]
  split <;> split <;> simp

theorem normalizeBound_ne_undef (k v : String) :
    normalizeBound k v ≠ JSVal.undef := by
  unfold normalizeBound
  split
  · split <;> simp
  · exact parseIntJS_ne_undef v

/-- C3 counterexample: the claim says an empty maximum/end-style bound is
normalized to `+Infinity`, but the source only checks `filterKey === 'max'`,
so an empty `yearRange.end` (an end-style bound) is normalized to `0`,
not `Infinity`. -/
theorem handleFilterChange_end_empty :
    (handleFilterChange initialFilters "yearRange.end" "").yearRange.«end»
        = JSVal.num 0 ∧
    (handleFilterChange initialFilters "yearRange.end" "").yearRange.«end»
        ≠ JSVal.inf := by
  decide

/-- C3 (amended): an empty bound value is normalized to `+Infinity` only
when the key segment of the input name is exactly `'max'`
(`revenueRange.max`, `netIncomeRange.max`) and to `0` for every other key
— including the end-style key `yearRange.end`, which however is a select
bound to the years 2020-2024 and never delivers an empty value through
the UI.  No stored bound is ever `undefined` after normalization. -/
theorem handleFilterChange_normalizes (prev : Filters) (name key : String)
    (h : (name, key) ∈ ([("yearRange.start", "start"), ("yearRange.end", "end"),
      ("revenueRange.min", "min"), ("revenueRange.max", "max"),
      ("netIncomeRange.min", "min"), ("netIncomeRange.max", "max")] :
        List (String × String))) :
    readBound (handleFilterChange prev name "") name
        = some (if key = "max" then JSVal.inf else JSVal.num 0) ∧
    ∀ v, readBound (handleFilterChange prev name v) name ≠ some JSVal.undef := by
  simp only [List.mem_cons, List.not_mem_nil, or_false] at h
  rcases h with h | h | h | h | h | h <;>
    (rw [Prod.ext_iff] at h; rcases h with ⟨rfl, rfl⟩) <;>
    refine ⟨rfl, fun v hv => ?_⟩ <;>
    exact absurd (Option.some_injective _ hv).symm
      (normalizeBound_ne_undef _ v).symm

/-- C3 witness: an empty `revenueRange.max` input stores `Infinity`, and
no change event leaves the bound `undefined`. -/
theorem handleFilterChange_normalizes_witness :
    readBound (handleFilterChange initialFilters "revenueRange.max" "")
        "revenueRange.max" = some JSVal.inf ∧
    readBound (handleFilterChange initialFilters "revenueRange.max" "7")
        "revenueRange.max" ≠ some JSVal.undef := by
  have h := handleFilterChange_normalizes initialFilters "revenueRange.max"
    "max" (by decide)
  exact ⟨by simpa using h.1, h.2 "7"⟩

/-- C4 counterexample: a record with `undefined` revenue compares as a tie
(`NaN` → `0`) with every other record while making the comparator
inconsistent, and ECMAScript then guarantees no order at all — the
engines' actual algorithm reorders such a "compare equal" pair.  On
revenues `[3, 1, undefined, 2]` sorted ascending by revenue, V8's sort
(one `CountAndMakeRun`: `[3, 1]` is a strictly descending run and is
reversed; then binary insertion of the `undefined` record probes only the
`3` record and appends; binary insertion of `2` probes `3`, then `1`, and
lands between them) returns the records in revenue order
`[1, 2, 3, undefined]`: the `undefined` record preceded the `2` record in
the input and follows it in the output, although `cmp` between them is
`0`.  Both `sortedData` (via `jsSort`) and the engine model `v8Sort`
compute exactly this output, so the reordering is the program's behavior,
not an artifact of the model's insertion order. -/
theorem sort_stable_counterexample :
    sortCompare ⟨"revenue", "asc"⟩
        ⟨"2023-09-30", .undef, .num 0, .num 0, .num 0, .num 0⟩
        ⟨"2024-09-28", .num 2, .num 0, .num 0, .num 0, .num 0⟩ = 0 ∧
    sortedData ⟨"revenue", "asc"⟩
        [⟨"2021-09-25", .num 3, .num 0, .num 0, .num 0, .num 0⟩,
         ⟨"2022-09-24", .num 1, .num 0, .num 0, .num 0, .num 0⟩,
         ⟨"2023-09-30", .undef, .num 0, .num 0, .num 0, .num 0⟩,
         ⟨"2024-09-28", .num 2, .num 0, .num 0, .num 0, .num 0⟩]
      = [⟨"2022-09-24", .num 1, .num 0, .num 0, .num 0, .num 0⟩,
         ⟨"2024-09-28", .num 2, .num 0, .num 0, .num 0, .num 0⟩,
         ⟨"2021-09-25", .num 3, .num 0, .num 0, .num 0, .num 0⟩,
         ⟨"2023-09-30", .undef, .num 0, .num 0, .num 0, .num 0⟩] ∧
    v8Sort (sortCompare ⟨"revenue", "asc"⟩)
        [⟨"2021-09-25", .num 3, .num 0, .num 0, .num 0, .num 0⟩,
         ⟨"2022-09-24", .num 1, .num 0, .num 0, .num 0, .num 0⟩,
         ⟨"2023-09-30", .undef, .num 0, .num 0, .num 0, .num 0⟩,
         ⟨"2024-09-28", .num 2, .num 0, .num 0, .num 0, .num 0⟩]
      = [⟨"2022-09-24", .num 1, .num 0, .num 0, .num 0, .num 0⟩,
         ⟨"2024-09-28", .num 2, .num 0, .num 0, .num 0, .num 0⟩,
         ⟨"2021-09-25", .num 3, .num 0, .num 0, .num 0, .num 0⟩,
         ⟨"2023-09-30", .undef, .num 0, .num 0, .num 0, .num 0⟩] := by
  decide

/-- C4 (amended): whenever every record's selected sort key is an actual
number (a valid date, or a numeric — possibly `null`-coerced — field), the
comparator is consistent and the sort is stable: for every key value `v`,
the records carrying key `v` appear in the output in exactly their input
order, for both directions.  With an `undefined` key the comparator is
inconsistent (`NaN` is treated as a tie with everything) and the ECMAScript
sort order is implementation-defined. -/
theorem sort_stable (cfg : SortConfig) (l : List FinancialRecord) (v : Int)
    (h : ∀ r ∈ l, keyDefined cfg.key r = true) :
    (sortedData cfg l).filter (fun r => decide (keyInt cfg.key r = v))
      = l.filter (fun r => decide (keyInt cfg.key r = v)) := by
  unfold sortedData
  split
  · rfl
  · rw [jsSort_congr l
      (fun a b ha hb => sortCompare_eq_sub cfg a b (h a ha) (h b hb))]
    have hpred : ∀ r, decide (dirKey cfg r
          = (if cfg.direction = "asc" then v else -v))
        = decide (keyInt cfg.key r = v) := by
      intro r
      unfold dirKey
      by_cases hd : cfg.direction = "asc" <;> simp [hd]
    calc (jsSort (fun a b => dirKey cfg a - dirKey cfg b) l).filter
            (fun r => decide (keyInt cfg.key r = v))
        = (jsSort (fun a b => dirKey cfg a - dirKey cfg b) l).filter
            (fun r => decide (dirKey cfg r
              = (if cfg.direction = "asc" then v else -v))) :=
          List.filter_congr (fun r _ => (hpred r).symm)
      _ = l.filter (fun r => decide (dirKey cfg r
              = (if cfg.direction = "asc" then v else -v))) :=
          jsSort_filter (dirKey cfg) _ l
      _ = l.filter (fun r => decide (keyInt cfg.key r = v)) :=
          List.filter_congr (fun r _ => hpred r)

/-- C4 witness: two equal-revenue records keep their input order under a
descending revenue sort. -/
theorem sort_stable_witness :
    (sortedData ⟨"revenue", "desc"⟩
        [⟨"2021-09-25", .num 7, .num 0, .num 0, .num 0, .num 0⟩,
         ⟨"2022-09-24", .num 7, .num 1, .num 0, .num 0, .num 0⟩]).filter
        (fun r => decide (keyInt "revenue" r = 7))
      = [⟨"2021-09-25", .num 7, .num 0, .num 0, .num 0, .num 0⟩,
         ⟨"2022-09-24", .num 7, .num 1, .num 0, .num 0, .num 0⟩].filter
        (fun r => decide (keyInt "revenue" r = 7)) :=
  sort_stable ⟨"revenue", "desc"⟩ _ 7 (by decide)

theorem keyInt_irrelevant_key (key : String) (r : FinancialRecord)
    (h1 : key ≠ "date") (h2 : key ≠ "revenue") (h3 : key ≠ "netIncome") :
    keyInt key r = 0 := by
  simp [keyInt, keyE, h1, h2, h3]

/-- C5 counterexample: the claim only excludes ties in the key values, but
a record with `undefined` revenue has a key distinct from every number yet
compares as a tie (`NaN` → `0`) with everything, and the descending output
reversed differs from the ascending output. -/
theorem sort_desc_reverse_counterexample :
    (sortedData ⟨"revenue", "desc"⟩
        [⟨"2021-09-25", .undef, .num 0, .num 0, .num 0, .num 0⟩,
         ⟨"2022-09-24", .num 1, .num 0, .num 0, .num 0, .num 0⟩,
         ⟨"2023-09-30", .num 2, .num 0, .num 0, .num 0, .num 0⟩]).reverse
      ≠ sortedData ⟨"revenue", "asc"⟩
        [⟨"2021-09-25", .undef, .num 0, .num 0, .num 0, .num 0⟩,
         ⟨"2022-09-24", .num 1, .num 0, .num 0, .num 0, .num 0⟩,
         ⟨"2023-09-30", .num 2, .num 0, .num 0, .num 0, .num 0⟩] := by
  decide

/-- C5 (amended): when every record's selected sort key is an actual
number (valid date or numeric field) and no two records have the same key
value, reversing the descending sort yields exactly the ascending sort. -/
theorem sort_desc_reverse (key : String) (l : List FinancialRecord)
    (hdef : ∀ r ∈ l, keyDefined key r = true)
    (hnodup : l.Pairwise (fun a b => keyInt key a ≠ keyInt key b)) :
    (sortedData ⟨key, "desc"⟩ l).reverse = sortedData ⟨key, "asc"⟩ l := by
  by_cases hk : key = ""
  · subst hk
    match l, hnodup with
    | [], _ => rfl
    | [x], _ => rfl
    | x :: y :: t, hp =>
      rcases List.pairwise_cons.mp hp with ⟨hx, _⟩
      have h0 : ∀ r : FinancialRecord, keyInt "" r = 0 := fun r =>
        keyInt_irrelevant_key "" r (by decide) (by decide) (by decide)
      exact absurd (by rw [h0 x, h0 y]) (hx y (List.mem_cons_self y t))
  · have hcd : ∀ r : FinancialRecord, dirKey ⟨key, "desc"⟩ r = -(keyInt key r) := by
      intro r; simp [dirKey]
    have hca : ∀ r : FinancialRecord, dirKey ⟨key, "asc"⟩ r = keyInt key r := by
      intro r; simp [dirKey]
    have hdesc : sortedData ⟨key, "desc"⟩ l
        = jsSort (fun a b => -(keyInt key a) - -(keyInt key b)) l := by
      unfold sortedData
      rw [if_neg hk]
      rw [jsSort_congr l (fun a b ha hb =>
        sortCompare_eq_sub ⟨key, "desc"⟩ a b (hdef a ha) (hdef b hb))]
      exact jsSort_congr l (fun a b _ _ => by rw [hcd a, hcd b])
    have hasc : sortedData ⟨key, "asc"⟩ l
        = jsSort (fun a b => keyInt key a - keyInt key b) l := by
      unfold sortedData
      rw [if_neg hk]
      rw [jsSort_congr l (fun a b ha hb =>
        sortCompare_eq_sub ⟨key, "asc"⟩ a b (hdef a ha) (hdef b hb))]
      exact jsSort_congr l (fun a b _ _ => by rw [hca a, hca b])
    rw [hdesc, hasc]
    have hperm : List.Perm
        (jsSort (fun a b => -(keyInt key a) - -(keyInt key b)) l).reverse
        (jsSort (fun a b => keyInt key a - keyInt key b) l) :=
      ((List.reverse_perm _).trans
        (jsSort_perm _ l)).trans (jsSort_perm _ l).symm
    have hs1 : (jsSort (fun a b => -(keyInt key a) - -(keyInt key b)) l).reverse.Pairwise
        (fun a b => keyInt key a ≤ keyInt key b) := by
      rw [List.pairwise_reverse]
      exact (jsSort_sorted (fun r => -(keyInt key r)) l).imp (fun h => by omega)
    have hs2 : (jsSort (fun a b => keyInt key a - keyInt key b) l).Pairwise
        (fun a b => keyInt key a ≤ keyInt key b) :=
      jsSort_sorted (fun r => keyInt key r) l
    have hd1 : (jsSort (fun a b => -(keyInt key a) - -(keyInt key b)) l).reverse.Pairwise
        (fun a b => keyInt key a ≠ keyInt key b) := by
      refine (List.Perm.pairwise_iff ?_ ((List.reverse_perm _).trans
        (jsSort_perm _ l))).mpr hnodup
      intro a b hab
      exact hab.symm
    exact sorted_perm_eq (fun r => keyInt key r) _ _ hperm hs1 hs2 hd1

/-- C5 witness: three records with distinct numeric revenues — the
descending sort reversed equals the ascending sort. -/
theorem sort_desc_reverse_witness :
    (sortedData ⟨"revenue", "desc"⟩
        [⟨"2022-09-24", .num 3, .num 0, .num 0, .num 0, .num 0⟩,
         ⟨"2021-09-25", .num 1, .num 0, .num 0, .num 0, .num 0⟩,
         ⟨"2023-09-30", .num 2, .num 0, .num 0, .num 0, .num 0⟩]).reverse
      = sortedData ⟨"revenue", "asc"⟩
        [⟨"2022-09-24", .num 3, .num 0, .num 0, .num 0, .num 0⟩,
         ⟨"2021-09-25", .num 1, .num 0, .num 0, .num 0, .num 0⟩,
         ⟨"2023-09-30", .num 2, .num 0, .num 0, .num 0, .num 0⟩] := by
  refine sort_desc_reverse "revenue" _ (by decide) ?_
  refine List.Pairwise.cons ?_ (List.Pairwise.cons ?_
    (List.Pairwise.cons ?_ List.Pairwise.nil)) <;>
    intro r hr <;> fin_cases hr <;> decide

/-- C8: the formatter is total — `null` and `undefined` map to `"N/A"`,
every finite value maps to its magnitude in billions with exactly three
decimals and a `" B"` suffix (`1_000_000_000 → "1.000 B"`,
`383_285_000_000 → "383.285 B"`), and the rounding picks the multiple of
`10^6` (a thousandth of a billion) nearest to the magnitude, resolving
ties upward, per the `toFixed` contract. -/
theorem formatToBillions_spec :
    formatToBillions JSVal.null = "N/A" ∧
    formatToBillions JSVal.undef = "N/A" ∧
    formatToBillions (JSVal.num 1000000000) = "1.000 B" ∧
    formatToBillions (JSVal.num 383285000000) = "383.285 B" ∧
    (∀ n : Int, formatToBillions (JSVal.num n) = toFixed3Billions n ++ " B") ∧
    (∀ a : Nat, a ≤ fixedScaled a * 1000000 + 499999 ∧
      fixedScaled a * 1000000 ≤ a + 500000) := by
  refine ⟨rfl, rfl, by decide, by decide, fun n => rfl, fun a => ?_⟩
  unfold fixedScaled
  omega

/-- C9: `sortedData` sorts a fresh copy of `filteredData`: on the array
store, the array the memo's input index refers to holds the same elements
in the same order after the computation, and the result is a different
array. -/
theorem sortedDataProg_frame (cfg : SortConfig)
    (store : List (List FinancialRecord)) (fd : Nat) (h : fd < store.length) :
    (sortedDataProg cfg store fd).1.getD fd [] = store.getD fd [] ∧
    (sortedDataProg cfg store fd).2 ≠ fd := by
  unfold sortedDataProg
  refine ⟨?_, ?_⟩
  · rw [List.getD_eq_getElem?_getD, List.getElem?_set_ne (by omega),
      List.getElem?_append, if_pos h, ← List.getD_eq_getElem?_getD]
  · show store.length ≠ fd
    omega

/-- C9 witness: sorting a two-record array leaves the original array
unchanged in the store. -/
theorem sortedDataProg_frame_witness :
    (sortedDataProg ⟨"revenue", "asc"⟩
        [[⟨"2022-09-24", .num 3, .num 0, .num 0, .num 0, .num 0⟩,
          ⟨"2021-09-25", .num 1, .num 0, .num 0, .num 0, .num 0⟩]] 0).1.getD 0 []
      = [⟨"2022-09-24", .num 3, .num 0, .num 0, .num 0, .num 0⟩,
         ⟨"2021-09-25", .num 1, .num 0, .num 0, .num 0, .num 0⟩] :=
  (sortedDataProg_frame ⟨"revenue", "asc"⟩
    [[⟨"2022-09-24", .num 3, .num 0, .num 0, .num 0, .num 0⟩,
      ⟨"2021-09-25", .num 1, .num 0, .num 0, .num 0, .num 0⟩]] 0
    (by decide)).1

/-- C10 counterexample: starting from `{key: 'date', direction: 'asc'}`,
three clicks on the `date` header yield `desc`, `asc`, `desc` — the third
click does not return the column to ascending order. -/
theorem handleSort_third_click_counterexample :
    handleSort (handleSort (handleSort ⟨"date", "asc"⟩ "date") "date") "date"
        = ⟨"date", "desc"⟩ ∧
    handleSort (handleSort (handleSort ⟨"date", "asc"⟩ "date") "date") "date"
        ≠ ⟨"date", "asc"⟩ := by
  decide

/-- C10 (amended): a click on key `k` sets `{k, desc}` when the current
configuration is `{k, asc}` and `{k, asc}` otherwise; consequently three
clicks on the same column end ascending exactly when the column was not
already `{k, asc}` at the start (otherwise the direction alternates
`desc`, `asc`, `desc`). -/
theorem handleSort_spec (c : SortConfig) (k : String) :
    (c.key = k ∧ c.direction = "asc" → handleSort c k = ⟨k, "desc"⟩) ∧
    (¬(c.key = k ∧ c.direction = "asc") → handleSort c k = ⟨k, "asc"⟩) ∧
    (¬(c.key = k ∧ c.direction = "asc") →
      handleSort (handleSort (handleSort c k) k) k = ⟨k, "asc"⟩) ∧
    (c.key = k ∧ c.direction = "asc" →
      handleSort (handleSort (handleSort c k) k) k = ⟨k, "desc"⟩) := by
  by_cases h : c.key = k ∧ c.direction = "asc" <;>
    simp [handleSort, h]

/-- C10 witness: clicking `revenue` while sorted `{date, asc}` selects
`{revenue, asc}`, and two further `revenue` clicks end at
`{revenue, asc}`. -/
theorem handleSort_spec_witness :
    handleSort ⟨"date", "asc"⟩ "revenue" = ⟨"revenue", "asc"⟩ ∧
    handleSort (handleSort (handleSort ⟨"date", "asc"⟩ "revenue") "revenue")
        "revenue" = ⟨"revenue", "asc"⟩ := by
  have h := handleSort_spec ⟨"date", "asc"⟩ "revenue"
  exact ⟨h.2.1 (by decide), h.2.2.1 (by decide)⟩
